import Mathlib

/-!
Verification development for the `indexer` repository (two Go variants of the
same system: `cursor/` and `windsurf/`, plus shared utility code).

Modelling conventions:
* Go strings are modelled as `List Char` (`Str`); a scalar value stands for one
  rune, and `'\n'` splitting at char level coincides with byte-level splitting
  because multi-byte UTF-8 runes never contain the byte 0x0A.  Buffer-size
  bounds are stated in these units (they coincide with byte counts for ASCII
  content).
* Go maps are modelled as association lists; map assignment is
  remove-then-append (`insertEntry`), and mapping equality is list equality on
  the canonical representations used here.
* `strings.ToLower` / `unicode.ToLower` is modelled rune-wise by
  `Char.toLower`; none of the verified properties depend on the lowering table.
* Concurrency (worker pools, channels) is modelled by its sequential outcome:
  the claims under study are about the final store contents and returned
  errors, which the Go code makes order-insensitive.
-/

/-- A Go string, modelled as its sequence of runes. -/
abbrev Str := List Char

/-- Embed a Lean string literal as a `Str`. -/
def strOf (s : String) : Str := s.data

/-- `strings.ToLower`, applied rune-wise. -/
def toLowerStr (s : Str) : Str := s.map Char.toLower

/-- Helper for `hasSubstr`: does `sub` occur in the scanned suffix? -/
def hasSubstrAux (sub : Str) : Str → Bool
  | [] => sub.isEmpty
  | c :: rest => sub.isPrefixOf (c :: rest) || hasSubstrAux sub rest

/-- `strings.Contains s sub` (substring occurrence; the empty string occurs
everywhere). -/
def hasSubstr (s sub : Str) : Bool := hasSubstrAux sub s

/-- Helper for `stringsCount` with a non-empty pattern: greedy left-to-right
count of non-overlapping occurrences (this is how Go `strings.Count`
repeatedly uses `strings.Index`, advancing past each match).  `skip` is the
number of characters of the current match still to be stepped over. -/
def countOccAux (pat : Str) : Str → Nat → Nat
  | [], _ => 0
  | _ :: rest, Nat.succ k => countOccAux pat rest k
  | c :: rest, 0 =>
      if pat.isPrefixOf (c :: rest) then
        countOccAux pat rest (pat.length - 1) + 1
      else
        countOccAux pat rest 0

/-- Go `strings.Count s pat`: for the empty pattern, `1 + RuneCount s`;
otherwise the number of non-overlapping occurrences of `pat` in `s`. -/
def stringsCount (s pat : Str) : Nat :=
  match pat with
  | [] => s.length + 1
  | _ :: _ => countOccAux pat s 0

example : stringsCount (strOf "foofoo") (strOf "foo") = 2 := by decide
example : stringsCount (strOf "aaaa") (strOf "aa") = 2 := by decide
example : stringsCount (strOf "abc") (strOf "") = 4 := by decide

/-- Helper for `pathExt`: walk the reversed path, accumulating the characters
seen until the first dot (Go `filepath.Ext` scans backwards and stops at a
path separator). -/
def extFromRev (acc : Str) : Str → Str
  | [] => []
  | c :: rest =>
      if c = '/' then []
      else if c = '.' then '.' :: acc
      else extFromRev (c :: acc) rest

/-- Go `filepath.Ext`: the suffix beginning at the final dot in the final
path element; empty if there is no dot. -/
def pathExt (p : Str) : Str := extFromRev [] p.reverse

/-- Go `filepath.Base`: the last element of the path, after removing trailing
slashes; `"."` for the empty path, `"/"` for an all-slash path. -/
def pathBase (p : Str) : Str :=
  if p.isEmpty then ['.']
  else
    let trimmedRev := p.reverse.dropWhile (fun c => c = '/')
    if trimmedRev.isEmpty then ['/']
    else (trimmedRev.takeWhile (fun c => c ≠ '/')).reverse

/-- Go `filepath.Dir`: everything but the last path element (cleaned); `"."`
when the path holds no separator.  The `..`-collapsing of `filepath.Clean` is
not modelled; the paths under study contain none. -/
def pathDir (p : Str) : Str :=
  let trimmedRev := p.reverse.dropWhile (fun c => c = '/')
  let restRev := trimmedRev.dropWhile (fun c => c ≠ '/')
  let parentRev := restRev.dropWhile (fun c => c = '/')
  if parentRev.isEmpty then (if restRev.isEmpty then ['.'] else ['/'])
  else parentRev.reverse

example : pathExt (strOf "a/b.txt") = strOf ".txt" := by decide
example : pathExt (strOf ".hidden") = strOf ".hidden" := by decide
example : pathBase (strOf "a/.env") = strOf ".env" := by decide
example : pathDir (strOf "/a/b.txt") = strOf "/a" := by decide
example : pathDir (strOf "b.txt") = strOf "." := by decide

/-- The decimal digit character for `n < 10` (`'0' + n`). -/
def digitChar (n : Nat) : Char := Char.ofNat (48 + n)

/-- Fuel-indexed decimal printing of a natural number, most significant digit
first (mirrors `strconv.FormatInt` for non-negative values; the JSON encoder
prints `int` map keys this way). -/
def natToStrAux : Nat → Nat → Str
  | 0, _ => []
  | fuel + 1, n =>
      if n < 10 then [digitChar n]
      else natToStrAux fuel (n / 10) ++ [digitChar (n % 10)]

/-- Decimal printing of a natural number. -/
def natToStr (n : Nat) : Str := natToStrAux (n + 1) n

/-- The digit value of a decimal character, if it is one. -/
def charToDigit (c : Char) : Option Nat :=
  if 48 ≤ c.toNat ∧ c.toNat ≤ 57 then some (c.toNat - 48) else none

/-- Helper for `parseNat`: left fold over decimal digits
(mirrors `strconv.ParseInt` on a non-negative decimal string). -/
def parseNatAux (acc : Nat) : Str → Option Nat
  | [] => some acc
  | c :: rest =>
      match charToDigit c with
      | some d => parseNatAux (acc * 10 + d) rest
      | none => none

/-- Parse a non-empty decimal string (the JSON decoder parses `int` map keys
this way). -/
def parseNat : Str → Option Nat
  | [] => none
  | s => parseNatAux 0 s

example : parseNat (natToStr 1234) = some 1234 := by decide
example : natToStr 0 = strOf "0" := by decide

/-! ## Data model

`FileEntry` is cursor's `indexer.FileEntry` (= windsurf's `FileIndex`): path,
line-number-to-text mapping, and modification timestamp.  The store
(`Index.files` / `Index.Files`) is the mapping from path to entry. -/

/-- One indexed file: path, line mapping (line number to text), and the
modification timestamp in seconds since the epoch. -/
structure FileEntry where
  path : Str
  lineIndex : List (Nat × Str)
  modified : Int
deriving DecidableEq, Repr

/-- The index store: mapping from file path to its entry, as an association
list standing for the Go map. -/
abbrev Store := List (Str × FileEntry)

/-- Go map assignment `m[p] = e`: any previous binding of `p` is replaced. -/
def insertEntry (s : Store) (p : Str) (e : FileEntry) : Store :=
  s.filter (fun kv => kv.1 ≠ p) ++ [(p, e)]

/-- Go map lookup `m[p]`. -/
def lookupEntry (s : Store) (p : Str) : Option FileEntry :=
  (s.find? (fun kv => kv.1 = p)).map Prod.snd

/-! ## File Scanner

Both variants read a file with `bufio.Scanner`.  The cursor variant installs a
16 MiB buffer and a custom split function that cuts at each `'\n'` (keeping
any `'\r'`); the windsurf variant keeps the default `bufio.ScanLines` split
(which also strips one trailing `'\r'` from each line) and the default 64 KiB
token limit.  In both, a token that cannot fit the buffer makes the scan fail
with `bufio.ErrTooLong` and `indexFile` returns that error, storing nothing. -/

/-- Helper for `scanLines`: `acc` holds the reversed characters of the token
being assembled.  At `'\n'` the token is emitted; at end of input the final
(unterminated) token is emitted; after a `'\n'` that ends the input no empty
final token is produced (the split function returns no token for empty data
at EOF). -/
def scanLinesAux (acc : Str) : Str → List Str
  | [] => [acc.reverse]
  | c :: rest =>
      if c = '\n' then
        acc.reverse :: (if rest.isEmpty then [] else scanLinesAux [] rest)
      else scanLinesAux (c :: acc) rest

/-- The tokens (line segments) `bufio.Scanner` produces for a file's
contents: split at each `'\n'`, the terminator stripped, a final unterminated
segment included, and the empty file yielding no segment. -/
def scanLines (content : Str) : List Str :=
  if content.isEmpty then [] else scanLinesAux [] content

example : scanLines (strOf "hello world\nfoo bar\n") =
    [strOf "hello world", strOf "foo bar"] := by decide
example : scanLines (strOf "a\n\nb") = [strOf "a", strOf "", strOf "b"] := by decide
example : scanLines (strOf "") = [] := by decide

/-- `dropCR` from `bufio.ScanLines`: strip one trailing `'\r'`. -/
def dropCR (s : Str) : Str :=
  match s.getLast? with
  | some '\x0d' => s.dropLast
  | _ => s

/-- Number a list of lines consecutively starting at `n` (the `lineNum := 1;
lineNum++` loop of both `indexFile`s). -/
def numberLines (n : Nat) : List Str → List (Nat × Str)
  | [] => []
  | l :: rest => (n, l) :: numberLines (n + 1) rest

/-- The cursor scanner buffer capacity: `maxScannerBufferSize = 16 * 1024 * 1024`. -/
def cursorMaxBuf : Nat := 16 * 1024 * 1024

/-- The windsurf (default `bufio.Scanner`) token limit:
`bufio.MaxScanTokenSize = 64 * 1024`. -/
def windsurfMaxBuf : Nat := 64 * 1024

/-- cursor `indexFile`, contents-to-lines part: fails with `ErrTooLong` when
some segment cannot fit the 16 MiB buffer, otherwise yields the numbered
lines. -/
def cursorIndexFile (content : Str) : Except Unit (List (Nat × Str)) :=
  if (scanLines content).any (fun seg => cursorMaxBuf ≤ seg.length) then .error ()
  else .ok (numberLines 1 (scanLines content))

/-- windsurf `indexFile`, contents-to-lines part: default `ScanLines` split
(one trailing `'\r'` stripped per line) and 64 KiB token limit. -/
def windsurfIndexFile (content : Str) : Except Unit (List (Nat × Str)) :=
  if (scanLines content).any (fun seg => windsurfMaxBuf ≤ seg.length) then .error ()
  else .ok (numberLines 1 ((scanLines content).map dropCR))

example : cursorIndexFile (strOf "ab\ncd\x0d\nx") =
    .ok [(1, strOf "ab"), (2, strOf "cd\x0d"), (3, strOf "x")] := rfl
example : windsurfIndexFile (strOf "ab\ncd\x0d\nx") =
    .ok [(1, strOf "ab"), (2, strOf "cd"), (3, strOf "x")] := rfl

/-! ## Classifier

cursor (`main.go`, the walk callback): skip binary-extension files, files
whose base name starts with a dot, and files over 100 MiB.  There is no
excluded-directory rule in this variant.

windsurf (`utils.go`): `ShouldIndexFile` (stat succeeds, not a directory,
at most 10 MiB, directory path contains no excluded directory name, extension
not excluded) and `IsTextFile` (extension in a text allowlist).  There is no
hidden-name rule in this variant. -/

/-- cursor `isBinaryFile`'s extension set (`binaryExts`). -/
def cursorBinaryExts : List Str :=
  [strOf ".exe", strOf ".dll", strOf ".so", strOf ".dylib",
   strOf ".bin", strOf ".obj", strOf ".o", strOf ".a",
   strOf ".lib", strOf ".pyc", strOf ".class", strOf ".jar",
   strOf ".war", strOf ".ear", strOf ".zip", strOf ".tar",
   strOf ".gz", strOf ".7z", strOf ".rar", strOf ".pdf",
   strOf ".jpg", strOf ".jpeg", strOf ".png", strOf ".gif",
   strOf ".bmp", strOf ".ico", strOf ".mp3", strOf ".mp4",
   strOf ".avi", strOf ".mov", strOf ".wmv", strOf ".flv"]

/-- cursor `isBinaryFile`: lower-cased extension in the binary set. -/
def isBinaryFile (p : Str) : Bool :=
  cursorBinaryExts.any (fun e => toLowerStr (pathExt p) = e)

/-- The skip decision of cursor's walk callback for a regular file: binary
extension, hidden base name, or size above 100 MiB. -/
def cursorSkipFile (p : Str) (size : Nat) : Bool :=
  isBinaryFile p || ['.'].isPrefixOf (pathBase p) || size > 100 * 1024 * 1024

/-- `DefaultExcludedDirs` from the shared utility file. -/
def DefaultExcludedDirs : List Str :=
  [strOf ".git", strOf ".svn", strOf "node_modules", strOf "vendor",
   strOf "bin", strOf "obj"]

/-- `DefaultExcludedExtensions` from the shared utility file. -/
def DefaultExcludedExtensions : List Str :=
  [strOf ".exe", strOf ".dll", strOf ".so", strOf ".dylib", strOf ".o",
   strOf ".a", strOf ".out",
   strOf ".jpg", strOf ".jpeg", strOf ".png", strOf ".gif", strOf ".bmp",
   strOf ".ico", strOf ".svg",
   strOf ".mp3", strOf ".mp4", strOf ".avi", strOf ".mkv", strOf ".mov",
   strOf ".flv", strOf ".wmv",
   strOf ".zip", strOf ".tar", strOf ".gz", strOf ".rar", strOf ".7z",
   strOf ".jar", strOf ".war",
   strOf ".class", strOf ".pyc", strOf ".pyo", strOf ".obj"]

/-- `ShouldIndexFile`: the stat outcome (`statOk`, `isDir`, `size`) is passed
in explicitly since the Go function stats the path itself. -/
def ShouldIndexFile (p : Str) (statOk isDir : Bool) (size : Nat) : Bool :=
  if !statOk || isDir then false
  else if size > 10 * 1024 * 1024 then false
  else if DefaultExcludedDirs.any (fun d => hasSubstr (pathDir p) d) then false
  else if DefaultExcludedExtensions.any (fun e => toLowerStr (pathExt p) = e) then false
  else true

/-- `IsTextFile`'s extension allowlist (`textExtensions`). -/
def textExtensions : List Str :=
  [strOf ".txt", strOf ".md", strOf ".json", strOf ".xml", strOf ".html",
   strOf ".htm", strOf ".css", strOf ".js",
   strOf ".go", strOf ".py", strOf ".java", strOf ".c", strOf ".cpp",
   strOf ".h", strOf ".hpp", strOf ".cs", strOf ".php",
   strOf ".rb", strOf ".pl", strOf ".sh", strOf ".bat", strOf ".ps1",
   strOf ".yaml", strOf ".yml", strOf ".toml",
   strOf ".ini", strOf ".cfg", strOf ".conf", strOf ".log", strOf ".csv",
   strOf ".tsv"]

/-- `IsTextFile`: lower-cased extension in the text allowlist. -/
def IsTextFile (p : Str) : Bool :=
  textExtensions.any (fun e => toLowerStr (pathExt p) = e)

example : cursorSkipFile (strOf "repo/.env") 5 = true := by decide
example : cursorSkipFile (strOf "repo/node_modules/util.go") 100 = false := by decide
example : ShouldIndexFile (strOf "repo/node_modules/util.go") true false 100 = false := by
  decide
example : ShouldIndexFile (strOf "repo/.config.yaml") true false 100 = true := by decide

/-! ## Search Engine

cursor `search.Search` / `searchFile`: the keyword is lower-cased once; each
line of each entry is lower-cased and the occurrences counted with
`strings.Count`; a line contributes one `SearchResult` exactly when the count
is positive.  The collector loop re-checks `MatchCount > 0` before keeping a
result.  The channel's interleaving only permutes results across files; the
model fixes the per-file, store-order sequence. -/

/-- cursor `search.SearchResult`. -/
structure SearchResult where
  filePath : Str
  lineNumber : Nat
  line : Str
  matchCount : Nat
deriving DecidableEq, Repr

/-- cursor `searchFile`: scan the lines of one entry with an already
lower-cased keyword, emitting a result per line with a positive count. -/
def searchFile (path : Str) (kw : Str) : List (Nat × Str) → List SearchResult
  | [] => []
  | (n, l) :: rest =>
      let count := stringsCount (toLowerStr l) kw
      if 0 < count then
        ⟨path, n, l, count⟩ :: searchFile path kw rest
      else searchFile path kw rest

/-- The collector loop of cursor `Search`: keep the results whose
`MatchCount` is positive. -/
def collectResults : List SearchResult → List SearchResult
  | [] => []
  | r :: rest =>
      if 0 < r.matchCount then r :: collectResults rest else collectResults rest

/-- cursor `Search`: lower-case the keyword once, search every file of the
snapshot, and collect. -/
def search (store : Store) (keyword : Str) : List SearchResult :=
  let kw := toLowerStr keyword
  collectResults (store.flatMap (fun pe => searchFile pe.1 kw pe.2.lineIndex))

example :
    search [(strOf "f", ⟨strOf "f", [(1, strOf "The Quick fox")], 0⟩)] (strOf "quick")
      = [⟨strOf "f", 1, strOf "The Quick fox", 1⟩] := by decide
example :
    search [(strOf "f", ⟨strOf "f", [(3, strOf "foofoo")], 0⟩)] (strOf "foo")
      = [⟨strOf "f", 3, strOf "foofoo", 2⟩] := by decide
example :
    search [(strOf "f", ⟨strOf "f", [(1, strOf "bar")], 0⟩)] (strOf "quick") = [] := by
  decide

/-! ## Indexing Engine

`filepath.Walk` is modelled as a stream of events (entries in walk order):
regular files with their stat data and contents, directories, and entries
whose visit fails.  A failing root `lstat` is modelled by `rootOk = false`,
in which case the walk function is invoked once with the error and no entry
events are delivered.

cursor: the walk callback logs every error (root-level included) and returns
`nil`, so the walk never aborts and `IndexDirectory` — which also logs worker
errors drained from its error channel — ends with `return nil`
unconditionally.  It clears `idx.files` before the walk.

windsurf: the walk callback returns the entry error, which aborts
`filepath.Walk` at that event; the error is pushed on the error channel and
`IndexDirectory` returns an error whenever that channel was non-empty (walk
error or any scan error).  The store is never cleared: records accumulate
into whatever `idx.index.Files` already held. -/

/-- One `filepath.Walk` callback invocation. -/
inductive WalkEvent
  | file (path : Str) (size : Nat) (mtime : Int) (content : Str)
  | dir (path : Str)
  | errEntry (path : Str)
deriving DecidableEq, Repr

/-- The traversal as seen by the walk callback. -/
structure WalkInput where
  rootOk : Bool
  events : List WalkEvent
deriving DecidableEq, Repr

/-- The path of a walk event. -/
def WalkEvent.path : WalkEvent → Str
  | .file p _ _ _ => p
  | .dir p => p
  | .errEntry p => p

/-- cursor `IndexDirectory`, effect of one walk event on the store: entry
errors and directories leave it unchanged; an eligible file is scanned and,
on success, inserted (scan failures are logged and dropped). -/
def cursorProcessEvent (st : Store) : WalkEvent → Store
  | .errEntry _ => st
  | .dir _ => st
  | .file p size mtime content =>
      if cursorSkipFile p size then st
      else
        match cursorIndexFile content with
        | .error _ => st
        | .ok lines => insertEntry st p ⟨p, lines, mtime⟩

/-- cursor `IndexDirectory`: reset the store, walk every event (errors, root
error included, are logged and swallowed), and return `nil` always. -/
def cursorIndexDirectory (idx : Store) (inp : WalkInput) : Store × Option Str :=
  let cleared : Store := []
  if inp.rootOk then (inp.events.foldl cursorProcessEvent cleared, none)
  else (cleared, none)

/-- windsurf `IndexDirectory`'s walk-and-scan loop: process events in order,
stopping at the first entry error (the callback returns it and the walk
aborts); `hadErr` records whether anything was pushed on the error channel. -/
def windsurfRun (st : Store) (hadErr : Bool) : List WalkEvent → Store × Bool
  | [] => (st, hadErr)
  | .errEntry _ :: _ => (st, true)
  | .dir _ :: rest => windsurfRun st hadErr rest
  | .file p size mtime content :: rest =>
      if ShouldIndexFile p true false size && IsTextFile p then
        match windsurfIndexFile content with
        | .error _ => windsurfRun st true rest
        | .ok lines => windsurfRun (insertEntry st p ⟨p, lines, mtime⟩) hadErr rest
      else windsurfRun st hadErr rest

/-- windsurf `IndexDirectory`: no reset; a root `lstat` failure is returned by
the walk and surfaces as an indexing error; otherwise run the walk loop and
report an error if the error channel received anything. -/
def windsurfIndexDirectory (idx : Store) (inp : WalkInput) : Store × Option Str :=
  if inp.rootOk then
    let out := windsurfRun idx false inp.events
    (out.1, if out.2 then some (strOf "encountered errors during indexing") else none)
  else (idx, some (strOf "walk error"))

/-! ## Cache

cursor `cache.Save` marshals the `GetFiles` snapshot to JSON and writes it
with `os.WriteFile`; `cache.Load` reads the file (a missing file yields an
empty map, any other read error or an unmarshal error is returned) and
unmarshals it.  windsurf `SaveIndex`/`LoadIndex` do the same through
`os.Create`/`os.Open` and an `Index` wrapper object, and `LoadIndex` returns
the `os.Open` error as-is — a missing file included.

The durable representation is modelled at the JSON-document level: a
`DiskState` is a missing file, an unparseable file, or a parsed document.
Marshalling emits map entries in store order (Go sorts map keys; as mappings
the two are the same object). -/

/-- A JSON document (the fragment these encoders use). -/
inductive Json
  | str (s : Str)
  | num (z : Int)
  | obj (fields : List (Str × Json))

/-- Marshal one `FileEntry` (cursor struct tags `path`, `line_index`,
`modified`; `map[int]string` keys become decimal strings). -/
def encodeEntry (e : FileEntry) : Json :=
  .obj [(strOf "path", .str e.path),
        (strOf "line_index",
          .obj (e.lineIndex.map (fun kv => (natToStr kv.1, .str kv.2)))),
        (strOf "modified", .num e.modified)]

/-- Marshal the whole store (cursor `Save`'s `map[string]*FileEntry`). -/
def encodeStore (s : Store) : Json :=
  .obj (s.map (fun pe => (pe.1, encodeEntry pe.2)))

/-- Field lookup in a JSON object (`json.Unmarshal` matches fields by tag). -/
def jsonField (fields : List (Str × Json)) (k : Str) : Option Json :=
  (fields.find? (fun kv => kv.1 = k)).map Prod.snd

/-- Unmarshal a `map[int]string`: every key must parse as a decimal integer
and every value must be a string. -/
def decodeLineIndex : Json → Option (List (Nat × Str))
  | .obj fields =>
      fields.mapM (fun kv =>
        match parseNat kv.1, kv.2 with
        | some k, .str v => some (k, v)
        | _, _ => none)
  | _ => none

/-- Unmarshal one `FileEntry`. -/
def decodeEntry : Json → Option FileEntry
  | .obj fields =>
      match jsonField fields (strOf "path"),
            jsonField fields (strOf "line_index"),
            jsonField fields (strOf "modified") with
      | some (.str p), some li, some (.num m) =>
          (decodeLineIndex li).map (fun lines => ⟨p, lines, m⟩)
      | _, _, _ => none
  | _ => none

/-- Unmarshal the whole store. -/
def decodeStore : Json → Option Store
  | .obj fields =>
      fields.mapM (fun kv => (decodeEntry kv.2).map (fun e => (kv.1, e)))
  | _ => none

/-- The durable cache location, as `Load`/`LoadIndex` can observe it. -/
inductive DiskState
  | missing
  | unreadable
  | stored (j : Json)

/-- The disk state cursor `Save` leaves after a successful write. -/
def cursorCacheSave (s : Store) : DiskState := .stored (encodeStore s)

/-- Errors the loaders distinguish. -/
inductive CacheError
  | openFailed
  | unmarshalFailed
deriving DecidableEq, Repr

/-- cursor `cache.Load`: a missing file yields the empty map and no error;
an unparseable or wrongly-shaped document yields an error. -/
def cursorCacheLoad : DiskState → Except CacheError Store
  | .missing => .ok []
  | .unreadable => .error .unmarshalFailed
  | .stored j =>
      match decodeStore j with
      | some s => .ok s
      | none => .error .unmarshalFailed

/-- Unmarshal windsurf's `Index` wrapper (`{"files": {...}}` with field tags
`path`, `lineMap`, `modified`). -/
def decodeWindsurfEntry : Json → Option FileEntry
  | .obj fields =>
      match jsonField fields (strOf "path"),
            jsonField fields (strOf "lineMap"),
            jsonField fields (strOf "modified") with
      | some (.str p), some li, some (.num m) =>
          (decodeLineIndex li).map (fun lines => ⟨p, lines, m⟩)
      | _, _, _ => none
  | _ => none

/-- Unmarshal windsurf's top-level `Index` object. -/
def decodeWindsurfIndex : Json → Option Store
  | .obj fields =>
      match jsonField fields (strOf "files") with
      | some (.obj entries) =>
          entries.mapM (fun kv => (decodeWindsurfEntry kv.2).map (fun e => (kv.1, e)))
      | _ => none
  | _ => none

/-- windsurf `LoadIndex`: `os.Open` fails on a missing file and that error is
returned as-is; decode errors are returned too. -/
def windsurfLoadIndex : DiskState → Except CacheError Store
  | .missing => .error .openFailed
  | .unreadable => .error .unmarshalFailed
  | .stored j =>
      match decodeWindsurfIndex j with
      | some s => .ok s
      | none => .error .unmarshalFailed

/-- Modelled from the spec: the existence-reconciliation step — after a
successful load, keep exactly the records whose path still exists (the
cursor `main` loop's `os.Stat` test; its actual insertion-into-a-copy slip is
modelled separately by `cursorMainLoadLoop`). -/
def reconcile (fsExists : Str → Bool) (loaded : Store) : Store :=
  loaded.filter (fun pe => fsExists pe.1)

/-- cursor `GetFiles`: a defensive copy of the files map. -/
def getFiles (s : Store) : Store := s.map (fun kv => kv)

/-- cursor `main`'s cache-load loop as written: for each loaded entry whose
path still exists, execute `idx.GetFiles()[path] = entry` — the insertion
lands in the defensive copy returned by `GetFiles`, which is then discarded,
so the loop leaves the index itself unchanged. -/
def cursorMainLoadLoop (idx : Store) (loaded : Store) (fsExists : Str → Bool) : Store :=
  loaded.foldl
    (fun st pe =>
      if fsExists pe.1 then
        let copyUpdated := insertEntry (getFiles st) pe.1 pe.2
        st
      else st)
    idx

/-- windsurf after `LoadIndex`: the decoded mapping becomes the store as-is;
no existence check is performed anywhere in that variant. -/
def windsurfPostLoad (loaded : Store) : Store := loaded

/-- The durable contents reachable while `os.WriteFile` (cursor `Save`) or
`os.Create`-then-encode (windsurf `SaveIndex`) replaces the cache file in
place: the old contents until the open, the empty file right after the
truncating open, then each prefix of the new contents as the write
progresses. -/
def truncThenWriteStates (old new : Str) : List Str :=
  old :: (List.range (new.length + 1)).map (fun k => new.take k)

/-! ## windsurf Search

windsurf `Search` (indexer.go): the keyword is lower-cased once; every line
of every entry is tested with `strings.Contains` against its lower-cased
text; a matching line appends one result holding only the entry's `Path` and
the line number — its `SearchResult` has no match count and no line text. -/

/-- windsurf `SearchResult`: file path and line number only. -/
structure WSearchResult where
  filePath : Str
  lineNumber : Nat
deriving DecidableEq, Repr

/-- The inner loop of windsurf `Search` over one entry's `LineMap`, with the
already lower-cased keyword: one result per line containing it. -/
def windsurfSearchLines (path kw : Str) : List (Nat × Str) → List WSearchResult
  | [] => []
  | (n, l) :: rest =>
      if hasSubstr (toLowerStr l) kw then
        ⟨path, n⟩ :: windsurfSearchLines path kw rest
      else windsurfSearchLines path kw rest

/-- windsurf `Search`: lower-case the keyword once and scan every entry
(results carry the entry's `Path` field, the map key unused). -/
def windsurfSearch (store : Store) (keyword : Str) : List WSearchResult :=
  let kw := toLowerStr keyword
  store.flatMap (fun pe => windsurfSearchLines pe.2.path kw pe.2.lineIndex)

example :
    windsurfSearch [(strOf "f", ⟨strOf "f", [(1, strOf "The Quick fox")], 0⟩)]
        (strOf "quick")
      = [⟨strOf "f", 1⟩] := by decide

/-! ## Lemmas about the search engine -/

/-- `searchFile` is the filter-and-map of the claim: one result per line with
a positive occurrence count, carrying that count. -/
theorem searchFile_eq (p kw : Str) (lines : List (Nat × Str)) :
    searchFile p kw lines =
      (lines.filter
          (fun nl => decide (0 < stringsCount (toLowerStr nl.2) kw))).map
        (fun nl => ⟨p, nl.1, nl.2, stringsCount (toLowerStr nl.2) kw⟩) := by
  induction lines with
  | nil => rfl
  | cons hd tl ih =>
    obtain ⟨n, l⟩ := hd
    by_cases h : 0 < stringsCount (toLowerStr l) kw
    · simp [searchFile, List.filter_cons, h, ih]
    · simp [searchFile, List.filter_cons, h, ih]

/-- Every result `searchFile` emits has a positive match count. -/
theorem searchFile_pos (p kw : Str) (lines : List (Nat × Str)) :
    ∀ r ∈ searchFile p kw lines, 0 < r.matchCount := by
  intro r hr
  rw [searchFile_eq] at hr
  obtain ⟨nl, hnl, rfl⟩ := List.mem_map.mp hr
  have hpos := List.of_mem_filter hnl
  exact of_decide_eq_true hpos

/-- The collector keeps a list of positive-count results unchanged. -/
theorem collectResults_of_pos (l : List SearchResult)
    (h : ∀ r ∈ l, 0 < r.matchCount) : collectResults l = l := by
  induction l with
  | nil => rfl
  | cons r rest ih =>
    rw [collectResults, if_pos (h r (List.mem_cons_self r rest))]
    exact congrArg _ (ih (fun r' hr' => h r' (List.mem_cons_of_mem r hr')))

/-- `Search` equals the filter-and-map over the snapshot: one result per line
whose lower-cased text has a positive count of the lower-cased keyword. -/
theorem search_eq_filter_map (store : Store) (keyword : Str) :
    search store keyword =
      store.flatMap (fun pe =>
        (pe.2.lineIndex.filter
            (fun nl =>
              decide (0 < stringsCount (toLowerStr nl.2) (toLowerStr keyword)))).map
          (fun nl =>
            ⟨pe.1, nl.1, nl.2, stringsCount (toLowerStr nl.2) (toLowerStr keyword)⟩)) := by
  unfold search
  rw [collectResults_of_pos]
  · simp only [searchFile_eq]
  · intro r hr
    obtain ⟨pe, _, hr⟩ := List.mem_flatMap.mp hr
    exact searchFile_pos _ _ _ r hr

/-- The windsurf inner loop is the filter-and-map over one entry's lines. -/
theorem windsurfSearchLines_eq (path kw : Str) (lines : List (Nat × Str)) :
    windsurfSearchLines path kw lines =
      (lines.filter (fun nl => hasSubstr (toLowerStr nl.2) kw)).map
        (fun nl => (⟨path, nl.1⟩ : WSearchResult)) := by
  induction lines with
  | nil => rfl
  | cons hd tl ih =>
    obtain ⟨n, l⟩ := hd
    by_cases h : hasSubstr (toLowerStr l) kw = true
    · simp [windsurfSearchLines, List.filter_cons, h, ih]
    · simp [windsurfSearchLines, List.filter_cons, h, ih]

/-- For a non-empty pattern, containment coincides with a positive greedy
occurrence count. -/
theorem hasSubstrAux_pos (pat : Str) (hne : pat ≠ []) :
    ∀ s : Str, hasSubstrAux pat s = decide (0 < countOccAux pat s 0) := by
  intro s
  induction s with
  | nil =>
    rw [hasSubstrAux]
    cases pat with
    | nil => exact absurd rfl hne
    | cons p0 pt => rfl
  | cons c rest ih =>
    rw [hasSubstrAux]
    cases hb : pat.isPrefixOf (c :: rest) with
    | true =>
      have hc : countOccAux pat (c :: rest) 0
          = countOccAux pat rest (pat.length - 1) + 1 := by
        simp [countOccAux, hb]
      rw [hc, Bool.true_or]
      simp
    | false =>
      have hc : countOccAux pat (c :: rest) 0 = countOccAux pat rest 0 := by
        simp [countOccAux, hb]
      rw [hc, Bool.false_or]
      exact ih

/-- `strings.Contains s pat` holds exactly when `strings.Count s pat` is
positive (the empty pattern is contained everywhere and counted as
length + 1). -/
theorem hasSubstr_eq_pos_count (s pat : Str) :
    hasSubstr s pat = decide (0 < stringsCount s pat) := by
  cases pat with
  | nil =>
    cases s <;> simp [hasSubstr, hasSubstrAux, stringsCount]
  | cons p0 pt =>
    show hasSubstrAux (p0 :: pt) s = decide (0 < countOccAux (p0 :: pt) s 0)
    exact hasSubstrAux_pos (p0 :: pt) (by simp) s

/-- C1 as stated is refuted by the cited windsurf variant
(indexer.go `Search`): its Search Result carries only the file path and the
line number — no match count exists in it — so for the keyword `foo` it
produces the identical result for a line whose non-overlapping occurrence
count is 2 and for one whose count is 1. -/
theorem c1_counterexample :
    windsurfSearch [(strOf "f", ⟨strOf "f", [(3, strOf "foofoo")], 0⟩)] (strOf "foo")
      = windsurfSearch [(strOf "f", ⟨strOf "f", [(3, strOf "foo")], 0⟩)] (strOf "foo") ∧
    stringsCount (toLowerStr (strOf "foofoo")) (toLowerStr (strOf "foo")) = 2 ∧
    stringsCount (toLowerStr (strOf "foo")) (toLowerStr (strOf "foo")) = 1 := by
  decide

/-- C1 (amended): both variants lower-case the keyword once and produce
exactly one result per line whose lower-cased text contains the lower-cased
keyword at least once — containment coinciding with a positive
non-overlapping occurrence count (last conjunct) — and lines with zero
occurrences contribute no result; but only the cursor variant's
`SearchResult` carries the match count (equal to that occurrence count),
while the windsurf variant's result holds only the file path and the line
number. -/
theorem c1_search_per_variant (store : Store) (keyword : Str) :
    (search store keyword =
      store.flatMap (fun pe =>
        (pe.2.lineIndex.filter
            (fun nl =>
              decide (0 < stringsCount (toLowerStr nl.2) (toLowerStr keyword)))).map
          (fun nl =>
            ⟨pe.1, nl.1, nl.2, stringsCount (toLowerStr nl.2) (toLowerStr keyword)⟩))) ∧
    (windsurfSearch store keyword =
      store.flatMap (fun pe =>
        (pe.2.lineIndex.filter
            (fun nl => hasSubstr (toLowerStr nl.2) (toLowerStr keyword))).map
          (fun nl => (⟨pe.2.path, nl.1⟩ : WSearchResult)))) ∧
    (∀ s : Str, hasSubstr s (toLowerStr keyword)
        = decide (0 < stringsCount s (toLowerStr keyword))) :=
  ⟨search_eq_filter_map store keyword,
    by simp only [windsurfSearch, windsurfSearchLines_eq],
    fun s => hasSubstr_eq_pos_count s (toLowerStr keyword)⟩

/-- C10 as stated is refuted by a non-empty index whose only record has no
lines (an indexed empty file contributes a record with an empty line map):
the empty-keyword search over this non-empty index returns zero results. -/
theorem c10_counterexample :
    search [(strOf "p", ⟨strOf "p", [], 0⟩)] (strOf "") = [] ∧
    [(strOf "p", (⟨strOf "p", [], 0⟩ : FileEntry))] ≠ ([] : Store) := by
  decide

/-- C10 (amended): for the empty keyword, search produces one result for
every line of every record, with match count the line's rune count plus one
(Go `strings.Count` with an empty pattern), so it returns zero results only
when no record has a line: over an index containing at least one line the
empty-keyword search never returns zero results. -/
theorem c10_empty_keyword (store : Store) :
    search store (strOf "") =
      store.flatMap (fun pe =>
        pe.2.lineIndex.map (fun nl => ⟨pe.1, nl.1, nl.2, nl.2.length + 1⟩)) ∧
    ((∃ pe ∈ store, pe.2.lineIndex ≠ []) → search store (strOf "") ≠ []) := by
  have hcount : ∀ l : Str,
      stringsCount (toLowerStr l) (toLowerStr (strOf "")) = l.length + 1 := by
    intro l
    show stringsCount (toLowerStr l) [] = l.length + 1
    rw [stringsCount]
    simp [toLowerStr]
  have hfun : ∀ pe : Str × FileEntry,
      ((pe.2.lineIndex.filter
          (fun nl =>
            decide (0 < stringsCount (toLowerStr nl.2) (toLowerStr (strOf ""))))).map
        (fun nl =>
          (⟨pe.1, nl.1, nl.2, stringsCount (toLowerStr nl.2) (toLowerStr (strOf ""))⟩ :
            SearchResult))) =
      pe.2.lineIndex.map (fun nl => ⟨pe.1, nl.1, nl.2, nl.2.length + 1⟩) := by
    intro pe
    have hfilter : pe.2.lineIndex.filter
        (fun nl =>
          decide (0 < stringsCount (toLowerStr nl.2) (toLowerStr (strOf "")))) =
        pe.2.lineIndex := by
      apply List.filter_eq_self.mpr
      intro nl _
      rw [hcount]
      simp
    rw [hfilter]
    apply List.map_congr_left
    intro nl _
    rw [hcount]
  have hmain : search store (strOf "") =
      store.flatMap (fun pe =>
        pe.2.lineIndex.map (fun nl => ⟨pe.1, nl.1, nl.2, nl.2.length + 1⟩)) := by
    rw [search_eq_filter_map]
    simp only [hfun]
  constructor
  · exact hmain
  · intro ⟨pe, hpe, hne⟩
    rw [hmain]
    intro hempty
    obtain ⟨nl, hnl⟩ := List.exists_mem_of_ne_nil _ hne
    exact absurd hempty (List.ne_nil_of_mem (List.mem_flatMap.mpr
      ⟨pe, hpe, List.mem_map_of_mem _ hnl⟩))

/-- Witness for the amended C10 at a one-line index. -/
theorem c10_witness :
    (∃ pe ∈ [(strOf "p", (⟨strOf "p", [(1, strOf "hi")], 0⟩ : FileEntry))],
        pe.2.lineIndex ≠ []) ∧
    search [(strOf "p", ⟨strOf "p", [(1, strOf "hi")], 0⟩)] (strOf "") ≠ [] :=
  ⟨by decide, (c10_empty_keyword _).2 (by decide)⟩

/-! ## Lemmas about the file scanner -/

/-- A chunk without `'\n'` is a single token (continuing the current one). -/
theorem scanLinesAux_no_newline (rest : Str) :
    ∀ acc, '\n' ∉ rest → scanLinesAux acc rest = [acc.reverse ++ rest] := by
  induction rest with
  | nil => intro acc _; simp [scanLinesAux]
  | cons c tail ih =>
    intro acc h
    have hc : ¬ c = '\n' := fun hc => h (hc ▸ List.mem_cons_self c tail)
    rw [scanLinesAux, if_neg hc, ih (c :: acc) (fun hm => h (List.mem_cons_of_mem c hm))]
    simp

/-- A non-empty newline-free file scans to exactly one line: itself. -/
theorem scanLines_no_newline (content : Str) (hne : content ≠ [])
    (h : '\n' ∉ content) : scanLines content = [content] := by
  rw [scanLines, if_neg (by simpa using hne)]
  simpa using scanLinesAux_no_newline content [] h

/-- The numbering loop numbers lines consecutively from its start value. -/
theorem numberLines_map_fst (xs : List Str) :
    ∀ n, (numberLines n xs).map Prod.fst = List.range' n xs.length := by
  induction xs with
  | nil => intro n; rfl
  | cons x tail ih =>
    intro n
    rw [numberLines, List.map_cons, List.length_cons, List.range'_succ, ih (n + 1)]

/-- The numbering loop keeps the lines themselves unchanged. -/
theorem numberLines_map_snd (xs : List Str) :
    ∀ n, (numberLines n xs).map Prod.snd = xs := by
  induction xs with
  | nil => intro n; rfl
  | cons x tail ih => intro n; rw [numberLines, List.map_cons, ih (n + 1)]

/-- C2 as stated ("regardless of line length... scan succeeds") is refuted:
a file consisting of one 16 MiB line without a terminator makes the cursor
scanner fail with `bufio.ErrTooLong` (the windsurf default scanner fails
already at 64 KiB). -/
theorem c2_counterexample :
    cursorIndexFile (List.replicate cursorMaxBuf 'a') = .error () := by
  have hne : List.replicate cursorMaxBuf 'a' ≠ [] := by
    intro h
    have := congrArg List.length h
    rw [List.length_replicate] at this
    simp [cursorMaxBuf] at this
  have hnn : '\n' ∉ List.replicate cursorMaxBuf 'a' := by
    intro hm
    have := List.eq_of_mem_replicate hm
    simp at this
  rw [cursorIndexFile, scanLines_no_newline _ hne hnn]
  rw [if_pos]
  rw [List.any_cons]
  rw [List.length_replicate]
  simp

/-- C2 (amended): provided every line-feed-delimited segment fits the scanner
buffer (16 MiB in the cursor variant, the 64 KiB default in the windsurf
variant), the scan succeeds and yields lines densely numbered `1..N` in read
order, where `N` is the number of segments (a final unterminated segment
included); each line is its segment with the `'\n'` terminator stripped (the
windsurf default split also strips one trailing `'\r'`). -/
theorem c2_scan_dense_lines (content : Str) :
    ((∀ seg ∈ scanLines content, seg.length < cursorMaxBuf) →
      ∃ lines, cursorIndexFile content = .ok lines ∧
        lines.map Prod.fst = List.range' 1 (scanLines content).length ∧
        lines.map Prod.snd = scanLines content) ∧
    ((∀ seg ∈ scanLines content, seg.length < windsurfMaxBuf) →
      ∃ lines, windsurfIndexFile content = .ok lines ∧
        lines.map Prod.fst = List.range' 1 (scanLines content).length ∧
        lines.map Prod.snd = (scanLines content).map dropCR) := by
  constructor
  · intro h
    have hany : ¬ (scanLines content).any (fun seg => cursorMaxBuf ≤ seg.length) := by
      simp only [List.any_eq_true, not_exists, not_and]
      intro seg hseg
      simp only [decide_eq_true_eq, not_le]
      exact h seg hseg
    refine ⟨numberLines 1 (scanLines content), ?_, ?_, ?_⟩
    · rw [cursorIndexFile, if_neg hany]
    · exact numberLines_map_fst _ 1
    · exact numberLines_map_snd _ 1
  · intro h
    have hany : ¬ (scanLines content).any (fun seg => windsurfMaxBuf ≤ seg.length) := by
      simp only [List.any_eq_true, not_exists, not_and]
      intro seg hseg
      simp only [decide_eq_true_eq, not_le]
      exact h seg hseg
    refine ⟨numberLines 1 ((scanLines content).map dropCR), ?_, ?_, ?_⟩
    · rw [windsurfIndexFile, if_neg hany]
    · rw [numberLines_map_fst _ 1, List.length_map]
    · exact numberLines_map_snd _ 1

/-- Witness for the amended C2 at a small two-line file. -/
theorem c2_witness :
    (∀ seg ∈ scanLines (strOf "ab\ncd"), seg.length < cursorMaxBuf) ∧
    (∃ lines, cursorIndexFile (strOf "ab\ncd") = .ok lines ∧
      lines.map Prod.fst = List.range' 1 (scanLines (strOf "ab\ncd")).length ∧
      lines.map Prod.snd = scanLines (strOf "ab\ncd")) :=
  ⟨by decide, (c2_scan_dense_lines (strOf "ab\ncd")).1 (by decide)⟩

/-! ## Lemmas about the indexing engine -/

/-- Membership after a map assignment: the old entries (other keys) or the
new binding. -/
theorem mem_insertEntry {st : Store} {p : Str} {e : FileEntry} {pe : Str × FileEntry}
    (h : pe ∈ insertEntry st p e) : pe ∈ st ∨ pe = (p, e) := by
  rw [insertEntry] at h
  rcases List.mem_append.mp h with h1 | h1
  · exact Or.inl (List.mem_of_mem_filter h1)
  · exact Or.inr (List.mem_singleton.mp h1)

/-- Filtering out a key other than the one sought does not change `find?`. -/
theorem find?_filter_other (q p : Str) (h : q ≠ p) (st : Store) :
    List.find? (fun kv => kv.1 = p) (st.filter (fun kv => kv.1 ≠ q))
      = List.find? (fun kv => kv.1 = p) st := by
  induction st with
  | nil => rfl
  | cons kv tail ih =>
    by_cases hq : kv.1 = q
    · have hp : ¬ kv.1 = p := fun hp => h (hq ▸ hp)
      rw [List.filter_cons_of_neg (by simp [hq]),
        List.find?_cons_of_neg _ (by simp [hp])]
      exact ih
    · rw [List.filter_cons_of_pos (by simp [hq])]
      by_cases hp : kv.1 = p
      · rw [List.find?_cons_of_pos _ (by simp [hp]),
          List.find?_cons_of_pos _ (by simp [hp])]
      · rw [List.find?_cons_of_neg _ (by simp [hp]),
          List.find?_cons_of_neg _ (by simp [hp])]
        exact ih

/-- Lookup is unchanged by assigning a different key. -/
theorem lookupEntry_insert_ne (st : Store) (q p : Str) (e : FileEntry)
    (h : q ≠ p) : lookupEntry (insertEntry st q e) p = lookupEntry st p := by
  rw [lookupEntry, insertEntry, List.find?_append, find?_filter_other q p h st]
  have hnone : List.find? (fun kv => decide (kv.1 = p)) [(q, e)] = none := by
    simp [h]
  rw [hnone, lookupEntry]
  cases List.find? (fun kv => decide (kv.1 = p)) st <;> rfl

/-- Any record in the store cursor's event fold produces was already present
or stems from a file event of the walk. -/
theorem cursor_fold_provenance (evs : List WalkEvent) :
    ∀ st pe, pe ∈ evs.foldl cursorProcessEvent st →
      pe ∈ st ∨ ∃ ev ∈ evs, ∃ size mtime content,
        ev = WalkEvent.file pe.1 size mtime content := by
  induction evs with
  | nil => intro st pe h; exact Or.inl h
  | cons ev rest ih =>
    intro st pe h
    rw [List.foldl_cons] at h
    rcases ih (cursorProcessEvent st ev) pe h with h1 | h1
    · cases ev with
      | errEntry q => exact Or.inl h1
      | dir q => exact Or.inl h1
      | file q size mtime content =>
        rw [cursorProcessEvent] at h1
        by_cases hskip : cursorSkipFile q size
        · rw [if_pos hskip] at h1
          exact Or.inl h1
        · rw [if_neg hskip] at h1
          cases hscan : cursorIndexFile content with
          | error e => rw [hscan] at h1; exact Or.inl h1
          | ok lines =>
            rw [hscan] at h1
            rcases mem_insertEntry h1 with h2 | h2
            · exact Or.inl h2
            · refine Or.inr ⟨WalkEvent.file q size mtime content,
                List.mem_cons_self _ _, size, mtime, content, ?_⟩
              rw [h2]
    · obtain ⟨ev', hev', hrest⟩ := h1
      exact Or.inr ⟨ev', List.mem_cons_of_mem _ hev', hrest⟩

/-- The windsurf walk loop leaves untouched keys alone. -/
theorem windsurfRun_lookup_untouched (p : Str) (evs : List WalkEvent)
    (h : ∀ ev ∈ evs, ev.path ≠ p) :
    ∀ st b, lookupEntry (windsurfRun st b evs).1 p = lookupEntry st p := by
  induction evs with
  | nil => intro st b; rfl
  | cons ev rest ih =>
    have hrest : ∀ ev' ∈ rest, ev'.path ≠ p :=
      fun ev' hm => h ev' (List.mem_cons_of_mem _ hm)
    have hih := ih hrest
    intro st b
    cases ev with
    | errEntry q => rfl
    | dir q => exact hih st b
    | file q size mtime content =>
      have hq : q ≠ p := h (WalkEvent.file q size mtime content) (List.mem_cons_self _ _)
      rw [windsurfRun]
      by_cases he : (ShouldIndexFile q true false size && IsTextFile q) = true
      · rw [if_pos he]
        cases hscan : windsurfIndexFile content with
        | error e => exact hih st true
        | ok lines =>
          rw [hih (insertEntry st q ⟨q, lines, mtime⟩) b]
          exact lookupEntry_insert_ne st q p _ hq
      · rw [if_neg he]
        exact hih st b

/-- C3 as stated is refuted by the windsurf variant: `IndexDirectory` over an
empty traversal (which scans nothing) leaves a pre-existing record in the
store, so the store is not reset and does not consist only of records
produced during the run. -/
theorem c3_counterexample :
    (windsurfIndexDirectory [(strOf "old", ⟨strOf "old", [(1, strOf "x")], 0⟩)]
        ⟨true, []⟩).1
      = [(strOf "old", ⟨strOf "old", [(1, strOf "x")], 0⟩)] := by
  decide

/-- C3 (amended): the cursor variant's `IndexDirectory` resets the store
before indexing — its result is independent of the prior store and every
record it contains stems from a file event of this run's traversal; the
windsurf variant's `IndexDirectory` never resets: a prior record whose path
no event of the run touches is still present (with its old contents)
afterwards. -/
theorem c3_reset_vs_accumulate :
    (∀ idx1 idx2 inp, (cursorIndexDirectory idx1 inp).1 = (cursorIndexDirectory idx2 inp).1) ∧
    (∀ idx inp pe, pe ∈ (cursorIndexDirectory idx inp).1 →
      ∃ ev ∈ inp.events, ∃ size mtime content,
        ev = WalkEvent.file pe.1 size mtime content) ∧
    (∀ idx inp p, (∀ ev ∈ inp.events, WalkEvent.path ev ≠ p) →
      lookupEntry (windsurfIndexDirectory idx inp).1 p = lookupEntry idx p) := by
  refine ⟨fun idx1 idx2 inp => rfl, ?_, ?_⟩
  · intro idx inp pe h
    rw [cursorIndexDirectory] at h
    by_cases hr : inp.rootOk
    · rw [if_pos hr] at h
      rcases cursor_fold_provenance inp.events [] pe h with h1 | h1
      · exact absurd h1 (List.not_mem_nil pe)
      · exact h1
    · rw [if_neg hr] at h
      exact absurd h (List.not_mem_nil pe)
  · intro idx inp p h
    rw [windsurfIndexDirectory]
    by_cases hr : inp.rootOk
    · rw [if_pos hr]
      exact windsurfRun_lookup_untouched p inp.events h idx false
    · rw [if_neg hr]

/-- Witness for the amended C3: a windsurf run over one unrelated file leaves
the prior record for path `q` in place. -/
theorem c3_witness :
    (∀ ev ∈ ([WalkEvent.file (strOf "a.txt") 2 0 (strOf "hi")] : List WalkEvent),
        WalkEvent.path ev ≠ strOf "q") ∧
    lookupEntry
        (windsurfIndexDirectory [(strOf "q", ⟨strOf "q", [(1, strOf "x")], 0⟩)]
          ⟨true, [WalkEvent.file (strOf "a.txt") 2 0 (strOf "hi")]⟩).1 (strOf "q")
      = lookupEntry [(strOf "q", ⟨strOf "q", [(1, strOf "x")], 0⟩)] (strOf "q") :=
  ⟨by decide,
    c3_reset_vs_accumulate.2.2 [(strOf "q", ⟨strOf "q", [(1, strOf "x")], 0⟩)]
      ⟨true, [WalkEvent.file (strOf "a.txt") 2 0 (strOf "hi")]⟩ (strOf "q") (by decide)⟩

/-- The windsurf walk loop stops at the first entry error: events after it
are never processed, and the error flag is set. -/
theorem windsurfRun_stops_at_error (p : Str) (post : List WalkEvent) :
    ∀ (pre : List WalkEvent) (st : Store) (b : Bool),
      windsurfRun st b (pre ++ WalkEvent.errEntry p :: post)
        = windsurfRun st b (pre ++ [WalkEvent.errEntry p]) ∧
      (windsurfRun st b (pre ++ WalkEvent.errEntry p :: post)).2 = true := by
  intro pre
  induction pre with
  | nil => intro st b; exact ⟨rfl, rfl⟩
  | cons ev rest ih =>
    intro st b
    cases ev with
    | errEntry q => exact ⟨rfl, rfl⟩
    | dir q =>
      rw [List.cons_append, List.cons_append, windsurfRun, windsurfRun]
      exact ih st b
    | file q size mtime content =>
      rw [List.cons_append, List.cons_append, windsurfRun, windsurfRun]
      by_cases he : (ShouldIndexFile q true false size && IsTextFile q) = true
      · rw [if_pos he, if_pos he]
        cases hscan : windsurfIndexFile content with
        | error e => exact ih st true
        | ok lines => exact ih (insertEntry st q ⟨q, lines, mtime⟩) b
      · rw [if_neg he, if_neg he]
        exact ih st b

/-- C4 as stated is refuted on both sides: the cursor variant returns no
error when the root itself cannot be walked (the callback logs the error and
returns `nil`), and the windsurf variant aborts the traversal at an
individual entry error — the sibling file after the failing entry is never
indexed. -/
theorem c4_counterexample :
    (cursorIndexDirectory [] ⟨false, []⟩).2 = none ∧
    (windsurfIndexDirectory []
        ⟨true, [WalkEvent.errEntry (strOf "bad"),
                WalkEvent.file (strOf "a.txt") 2 0 (strOf "hi")]⟩).1 = [] := by
  decide

/-- C4 (amended): the cursor variant's `IndexDirectory` never returns an
error — root-level and per-entry traversal errors alike are logged and
swallowed; the windsurf variant returns an error for a failing root, and any
individual entry error likewise aborts its walk (events after it are not
processed) and makes `IndexDirectory` return an error. -/
theorem c4_error_propagation :
    (∀ idx inp, (cursorIndexDirectory idx inp).2 = none) ∧
    (∀ idx evs, (windsurfIndexDirectory idx ⟨false, evs⟩).2
        = some (strOf "walk error")) ∧
    (∀ idx pre post p,
      windsurfIndexDirectory idx ⟨true, pre ++ WalkEvent.errEntry p :: post⟩
        = windsurfIndexDirectory idx ⟨true, pre ++ [WalkEvent.errEntry p]⟩ ∧
      (windsurfIndexDirectory idx ⟨true, pre ++ WalkEvent.errEntry p :: post⟩).2
        = some (strOf "encountered errors during indexing")) := by
  refine ⟨?_, fun idx evs => rfl, ?_⟩
  · intro idx inp
    rw [cursorIndexDirectory]
    by_cases hr : inp.rootOk
    · rw [if_pos hr]
    · rw [if_neg hr]
  · intro idx pre post p
    obtain ⟨heq, herr⟩ := windsurfRun_stops_at_error p post pre idx false
    constructor
    · rw [windsurfIndexDirectory, windsurfIndexDirectory, if_pos rfl, if_pos rfl]
      rw [heq]
    · rw [windsurfIndexDirectory, if_pos rfl]
      show (if (windsurfRun idx false (pre ++ WalkEvent.errEntry p :: post)).2 = true
          then some (strOf "encountered errors during indexing") else none)
        = some (strOf "encountered errors during indexing")
      rw [herr, if_pos rfl]

/-- Witness for the amended C4 at concrete traversals. -/
theorem c4_witness :
    (cursorIndexDirectory [(strOf "z", ⟨strOf "z", [], 0⟩)] ⟨false, []⟩).2 = none ∧
    (windsurfIndexDirectory [] ⟨false, []⟩).2 = some (strOf "walk error") ∧
    (windsurfIndexDirectory []
        ⟨true, [WalkEvent.errEntry (strOf "bad"), WalkEvent.dir (strOf "d")]⟩).2
      = some (strOf "encountered errors during indexing") :=
  ⟨c4_error_propagation.1 _ _, c4_error_propagation.2.1 _ _,
    (c4_error_propagation.2.2 [] [] [WalkEvent.dir (strOf "d")] (strOf "bad")).2⟩

/-! ## Lemmas about the cache round trip -/

/-- A digit survives printing and re-reading. -/
theorem charToDigit_digitChar (n : Nat) (h : n < 10) :
    charToDigit (digitChar n) = some n := by
  interval_cases n <;> decide

/-- `parseNatAux` processes an appended suffix after the prefix. -/
theorem parseNatAux_append (s : Str) :
    ∀ (t : Str) (acc : Nat), parseNatAux acc (s ++ t)
      = match parseNatAux acc s with
        | some a => parseNatAux a t
        | none => none := by
  induction s with
  | nil => intro t acc; rfl
  | cons c rest ih =>
    intro t acc
    rw [List.cons_append, parseNatAux, parseNatAux]
    cases charToDigit c with
    | none => rfl
    | some d => exact ih t (acc * 10 + d)

/-- Parsing inverts the fuelled decimal printer, folding the digits onto any
accumulator. -/
theorem parseNatAux_natToStrAux (fuel : Nat) :
    ∀ n acc, n < fuel →
      parseNatAux acc (natToStrAux fuel n)
        = some (acc * 10 ^ (natToStrAux fuel n).length + n) := by
  induction fuel with
  | zero => intro n acc h; exact absurd h (Nat.not_lt_zero n)
  | succ fuel ih =>
    intro n acc h
    by_cases h10 : n < 10
    · rw [natToStrAux, if_pos h10]
      simp only [parseNatAux, charToDigit_digitChar n h10, List.length_singleton]
      norm_num
    · rw [natToStrAux, if_neg h10]
      have hn0 : 0 < n := by omega
      have hdiv : n / 10 < fuel := by
        have h1 : n / 10 < n := Nat.div_lt_self hn0 (by norm_num)
        omega
      rw [parseNatAux_append, ih (n / 10) acc hdiv]
      simp only [parseNatAux, charToDigit_digitChar (n % 10) (Nat.mod_lt n (by norm_num)),
        List.length_append, List.length_singleton]
      congr 1
      have hmod : 10 * (n / 10) + n % 10 = n := Nat.div_add_mod n 10
      calc (acc * 10 ^ (natToStrAux fuel (n / 10)).length + n / 10) * 10 + n % 10
          = acc * (10 ^ (natToStrAux fuel (n / 10)).length * 10)
              + (10 * (n / 10) + n % 10) := by ring
        _ = acc * 10 ^ ((natToStrAux fuel (n / 10)).length + 1) + n := by
            rw [hmod, pow_succ]

/-- The decimal printer never yields the empty string. -/
theorem natToStr_ne_nil (n : Nat) : natToStr n ≠ [] := by
  unfold natToStr natToStrAux
  by_cases h10 : n < 10
  · rw [if_pos h10]; simp
  · rw [if_neg h10]; simp

/-- Printing then parsing a natural number is the identity. -/
theorem parseNat_natToStr (n : Nat) : parseNat (natToStr n) = some n := by
  have h := parseNatAux_natToStrAux (n + 1) n 0 (Nat.lt_succ_self n)
  have hne : natToStr n ≠ [] := natToStr_ne_nil n
  unfold natToStr at h hne ⊢
  cases hs : natToStrAux (n + 1) n with
  | nil => exact absurd hs hne
  | cons c rest =>
    rw [hs] at h
    show parseNatAux 0 (c :: rest) = some n
    rw [h]
    norm_num

/-- Decoding inverts the encoding of a line mapping. -/
theorem decodeLineIndex_encode (li : List (Nat × Str)) :
    decodeLineIndex (Json.obj (li.map (fun kv => (natToStr kv.1, Json.str kv.2))))
      = some li := by
  show (li.map (fun kv => (natToStr kv.1, Json.str kv.2))).mapM
      (fun kv =>
        match parseNat kv.1, kv.2 with
        | some k, Json.str v => some (k, v)
        | _, _ => none) = some li
  induction li with
  | nil => rfl
  | cons kv rest ih =>
    rw [List.map_cons, List.mapM_cons]
    simp only [parseNat_natToStr]
    rw [ih]
    rfl

/-- Decoding inverts the encoding of one entry. -/
theorem decodeEntry_encodeEntry (e : FileEntry) :
    decodeEntry (encodeEntry e) = some e := by
  have h1 : jsonField [(strOf "path", Json.str e.path),
      (strOf "line_index",
        Json.obj (e.lineIndex.map (fun kv => (natToStr kv.1, Json.str kv.2)))),
      (strOf "modified", Json.num e.modified)] (strOf "path")
      = some (Json.str e.path) := by
    simp [jsonField, List.find?, strOf]
  have h2 : jsonField [(strOf "path", Json.str e.path),
      (strOf "line_index",
        Json.obj (e.lineIndex.map (fun kv => (natToStr kv.1, Json.str kv.2)))),
      (strOf "modified", Json.num e.modified)] (strOf "line_index")
      = some (Json.obj (e.lineIndex.map (fun kv => (natToStr kv.1, Json.str kv.2)))) := by
    simp [jsonField, List.find?, strOf]
  have h3 : jsonField [(strOf "path", Json.str e.path),
      (strOf "line_index",
        Json.obj (e.lineIndex.map (fun kv => (natToStr kv.1, Json.str kv.2)))),
      (strOf "modified", Json.num e.modified)] (strOf "modified")
      = some (Json.num e.modified) := by
    simp [jsonField, List.find?, strOf]
  show decodeEntry (Json.obj [(strOf "path", Json.str e.path),
      (strOf "line_index",
        Json.obj (e.lineIndex.map (fun kv => (natToStr kv.1, Json.str kv.2)))),
      (strOf "modified", Json.num e.modified)]) = some e
  simp only [decodeEntry, h1, h2, h3, decodeLineIndex_encode, Option.map_some]
  rfl

/-- Decoding inverts the encoding of the whole store. -/
theorem decodeStore_encodeStore (S : Store) :
    decodeStore (encodeStore S) = some S := by
  show (S.map (fun pe => (pe.1, encodeEntry pe.2))).mapM
      (fun kv => (decodeEntry kv.2).map (fun e => (kv.1, e))) = some S
  induction S with
  | nil => rfl
  | cons pe rest ih =>
    rw [List.map_cons, List.mapM_cons]
    simp only [decodeEntry_encodeEntry, Option.map_some]
    rw [ih]
    rfl

/-- C5: saving a store and loading it back, then reconciling against a
filesystem on which every saved path still exists, returns exactly the saved
mapping — paths, dense line mappings and modification timestamps included. -/
theorem c5_save_load_roundtrip (S : Store) (fsExists : Str → Bool)
    (h : ∀ pe ∈ S, fsExists pe.1 = true) :
    (cursorCacheLoad (cursorCacheSave S)).map (reconcile fsExists)
      = Except.ok S := by
  show (match decodeStore (encodeStore S) with
        | some s => Except.ok s
        | none => Except.error CacheError.unmarshalFailed).map (reconcile fsExists)
      = Except.ok S
  rw [decodeStore_encodeStore]
  show Except.ok (reconcile fsExists S) = Except.ok S
  rw [reconcile, List.filter_eq_self.mpr h]

/-- Witness for C5 at a two-line store. -/
theorem c5_witness :
    (∀ pe ∈ [(strOf "/tmp/a.txt",
        (⟨strOf "/tmp/a.txt", [(1, strOf "hello world"), (2, strOf "foo bar")], 42⟩ :
          FileEntry))], (fun _ => true) pe.1 = true) ∧
    (cursorCacheLoad (cursorCacheSave [(strOf "/tmp/a.txt",
          ⟨strOf "/tmp/a.txt", [(1, strOf "hello world"), (2, strOf "foo bar")], 42⟩)])).map
        (reconcile (fun _ => true))
      = Except.ok [(strOf "/tmp/a.txt",
          ⟨strOf "/tmp/a.txt", [(1, strOf "hello world"), (2, strOf "foo bar")], 42⟩)] :=
  ⟨by decide, c5_save_load_roundtrip _ _ (by decide)⟩

/-- C6 as stated is refuted by the windsurf variant: with no prior save,
`LoadIndex` does not return an empty mapping without error — it returns the
`os.Open` error. -/
theorem c6_counterexample :
    windsurfLoadIndex DiskState.missing = Except.error CacheError.openFailed := rfl

/-- C6 (amended): cursor's `Load` returns the empty mapping and no error when
no prior save exists, and an error when the stored representation cannot be
parsed; windsurf's `LoadIndex` returns an error in both situations — for a
missing file it surfaces the open error instead of an empty mapping. -/
theorem c6_load_missing_vs_corrupt :
    cursorCacheLoad DiskState.missing = Except.ok [] ∧
    cursorCacheLoad DiskState.unreadable = Except.error CacheError.unmarshalFailed ∧
    windsurfLoadIndex DiskState.missing = Except.error CacheError.openFailed ∧
    windsurfLoadIndex DiskState.unreadable = Except.error CacheError.unmarshalFailed :=
  ⟨rfl, rfl, rfl, rfl⟩

/-- C7: both `Save`s replace the cache file in place (`os.WriteFile` /
`os.Create` truncate the existing file before writing), so a failing save can
leave the durable storage in a state — here the truncated empty file — that
is neither the previous successful save's content nor the completely written
new content.  No atomic replace (write-to-temporary-then-rename) exists in
either variant. -/
theorem c7_truncated_state_reachable :
    ([] : Str) ∈ truncThenWriteStates (strOf "previous") (strOf "next") ∧
    strOf "ne" ∈ truncThenWriteStates (strOf "previous") (strOf "next") ∧
    ([] : Str) ≠ strOf "previous" ∧ ([] : Str) ≠ strOf "next" ∧
    strOf "ne" ≠ strOf "previous" ∧ strOf "ne" ≠ strOf "next" := by
  decide

/-- C8: the reconciliation the spec requires is broken in both variants.  The
cursor `main` load loop executes `idx.GetFiles()[path] = entry`, which
inserts into the defensive copy `GetFiles` returns, so even an entry whose
path exists never reaches the index (the store stays empty although the code
reports it loaded one valid file); the windsurf variant performs no
existence check at all, so a record whose path no longer exists is retained
verbatim after load. -/
theorem c8_reconciliation_broken :
    cursorMainLoadLoop []
        [(strOf "/tmp/kept.txt", ⟨strOf "/tmp/kept.txt", [(1, strOf "hi")], 7⟩)]
        (fun _ => true) = [] ∧
    lookupEntry
        (windsurfPostLoad
          [(strOf "/tmp/gone.txt", ⟨strOf "/tmp/gone.txt", [(1, strOf "x")], 7⟩)])
        (strOf "/tmp/gone.txt")
      = some ⟨strOf "/tmp/gone.txt", [(1, strOf "x")], 7⟩ := by
  decide

/-- C9 as stated is refuted on both variants: cursor indexes a file under
`node_modules` (it has no excluded-directory rule), and windsurf indexes a
hidden-named file with a recognised text extension (it has no hidden-name
rule). -/
theorem c9_counterexample :
    cursorSkipFile (strOf "repo/node_modules/util.go") 100 = false ∧
    (ShouldIndexFile (strOf "repo/.config.yaml") true false 100 = true ∧
      IsTextFile (strOf "repo/.config.yaml") = true) := by
  decide

/-- C9 (amended): each variant supports exactly one of the two rules — the
cursor classifier rejects every file whose base name starts with a dot but
has no excluded-directory rule, while the windsurf classifier rejects every
file whose directory path contains a configured excluded directory name but
has no hidden-name rule. -/
theorem c9_hidden_and_excluded_rules :
    (∀ p size, ['.'].isPrefixOf (pathBase p) = true → cursorSkipFile p size = true) ∧
    (∀ p statOk isDir size,
      DefaultExcludedDirs.any (fun d => hasSubstr (pathDir p) d) = true →
      ShouldIndexFile p statOk isDir size = false) := by
  constructor
  · intro p size h
    rw [cursorSkipFile, h]
    simp
  · intro p statOk isDir size h
    rw [ShouldIndexFile]
    by_cases h1 : (!statOk || isDir) = true
    · rw [if_pos h1]
    · rw [if_neg h1]
      by_cases h2 : size > 10 * 1024 * 1024
      · rw [if_pos h2]
      · rw [if_neg h2, if_pos h]

/-- Witness for the amended C9 at concrete paths. -/
theorem c9_witness :
    cursorSkipFile (strOf "x/.env") 5 = true ∧
    ShouldIndexFile (strOf "x/node_modules/y.txt") true false 5 = false :=
  ⟨c9_hidden_and_excluded_rules.1 (strOf "x/.env") 5 (by decide),
    c9_hidden_and_excluded_rules.2 (strOf "x/node_modules/y.txt") true false 5
      (by decide)⟩
